import Mathlib

/-!
Shallow embedding of the NDK_Tracker client-side session engine and proofs about it.

Embedded source files:
* `frontend/src/services/SyncService.js` — the durable outbox over IndexedDB
  (`enqueueLog`, `getQueued`, `removeItem`, `flushQueue`, `sendOrQueue`);
* `frontend/src/services/SpeechService.js` — the listening-episode aggregation
  driven by engine `onresult` events and the silence timer in `startListening`,
  and `stopListening`;
* `frontend/src/components/ConversationScreen.js` — the `submitInput` and
  `saveSession` transitions of the conversation session state.

Effectful host interfaces are made explicit: a backend delivery attempt is a
`FetchResult` (an HTTP response with its `ok` flag, or a thrown network error),
the IndexedDB transaction outcome is a `Bool`/`Except`, engine events are data,
and timers become explicit flags. UI-only side effects (alerts, speech synthesis
feedback, the microphone level meter) are elided; they touch no modelled state.
-/

namespace JsString

/-- JavaScript `String.prototype.trim()` as the embedded code calls it: strip
leading and trailing whitespace. Defined over the character list so that it
evaluates by kernel reduction. -/
def trim (s : String) : String :=
  ⟨((s.data.dropWhile Char.isWhitespace).reverse.dropWhile Char.isWhitespace).reverse⟩

end JsString

namespace SyncService

/-- Outcome of one `fetch` POST of a payload to the backend: either a response
arrived (carrying its `ok` status flag) or the fetch rejected (network failure). -/
inductive FetchResult where
  | resp (ok : Bool)
  | networkError
  deriving DecidableEq

/-- Rejection of an IndexedDB transaction (`tx.onerror`): the local durable
store is unavailable. -/
inductive StorageError where
  | persistence
  deriving DecidableEq

/-- The `status` field of the object `sendOrQueue` resolves with. -/
inductive SendOutcome where
  | sent
  | queued
  deriving DecidableEq

/-- A record of the `log-queue` object store, as written by `enqueueLog`:
IndexedDB assigns the auto-incrementing key `id` (keyPath `id`); the stored
value is `{ session, status: "queued", createdAt }`. -/
structure PendingLogEntry (π : Type) where
  id : Nat
  session : π
  status : String
  createdAt : Nat
  deriving DecidableEq

/-- The durable `log-queue` object store: its entries in ascending key order
together with the state of the auto-increment key generator. -/
structure QueueState (π : Type) where
  items : List (PendingLogEntry π)
  nextId : Nat
  deriving DecidableEq

variable {π : Type}

/-- Well-formedness of the store as IndexedDB maintains it: entries are listed
in strictly ascending key order (creation order) and every existing key is
below the key generator value. -/
def QueueState.WF (q : QueueState π) : Prop :=
  List.Pairwise (fun a b => a.id < b.id) q.items ∧ ∀ e ∈ q.items, e.id < q.nextId

instance (q : QueueState π) [DecidableEq π] : Decidable q.WF := by
  unfold QueueState.WF; infer_instance

/-- `getQueued()`: `getAll` on the store, which returns all entries in
ascending key order; read-only. -/
def getQueued (q : QueueState π) : List (PendingLogEntry π) := q.items

/-- `enqueueLog(session)`: one readwrite transaction adding
`{ session, status: "queued", createdAt: now }` under a fresh auto-increment
key. `avail` says whether the durable store commits the transaction; when it
does not, the promise rejects with the storage error. -/
def enqueueLog (avail : Bool) (q : QueueState π) (session : π) (now : Nat) :
    Except StorageError (QueueState π) :=
  if avail then
    .ok { items :=
            q.items ++ [{ id := q.nextId, session := session,
                          status := "queued", createdAt := now }],
          nextId := q.nextId + 1 }
  else
    .error .persistence

/-- `removeItem(id)`: delete by key; deleting an absent key is a no-op. -/
def removeItem (q : QueueState π) (id : Nat) : QueueState π :=
  { q with items := q.items.filter (fun e => e.id != id) }

/-- The loop body of `flushQueue`, iterating the snapshot `items` that
`getQueued` returned. For each item, POST it to the backend; if the response is
ok, `removeItem` it and continue with the next; on a non-ok response or a
network error, `break`. Returns the final store state together with the keys of
the items actually attempted, in attempt order. -/
def flushGo (net : π → FetchResult) (q : QueueState π) :
    List (PendingLogEntry π) → QueueState π × List Nat
  | [] => (q, [])
  | item :: rest =>
    match net item.session with
    | .resp true =>
      let r := flushGo net (removeItem q item.id) rest
      (r.1, item.id :: r.2)
    | .resp false => (q, [item.id])
    | .networkError => (q, [item.id])

/-- `flushQueue(backendUrl)`: snapshot the queued entries with `getQueued`,
then run the delivery loop over that snapshot. -/
def flushQueue (net : π → FetchResult) (q : QueueState π) : QueueState π × List Nat :=
  flushGo net q (getQueued q)

/-- `sendOrQueue(session, backendUrl)`: try one immediate POST. An ok response
resolves with `sent` and touches no stored state. A non-ok response enqueues
(inside the `try` block, so a storage rejection there is caught by the
surrounding `catch`, which attempts the enqueue once more); a network error
enqueues from the `catch`. A storage rejection of the final enqueue attempt is
not caught and rejects the whole call. -/
def sendOrQueue (net : π → FetchResult) (avail : Bool) (q : QueueState π)
    (session : π) (now : Nat) :
    Except StorageError (SendOutcome × QueueState π) :=
  match net session with
  | .resp true => .ok (.sent, q)
  | .resp false =>
    match enqueueLog avail q session now with
    | .ok q2 => .ok (.queued, q2)
    | .error _ =>
      match enqueueLog avail q session now with
      | .ok q2 => .ok (.queued, q2)
      | .error e => .error e
  | .networkError =>
    match enqueueLog avail q session now with
    | .ok q2 => .ok (.queued, q2)
    | .error e => .error e

/-- Specification-side measure: the length of the longest prefix of the entry
list whose delivery response is an ok response. -/
def okPrefixLen (net : π → FetchResult) : List (PendingLogEntry π) → Nat
  | [] => 0
  | item :: rest =>
    match net item.session with
    | .resp true => okPrefixLen net rest + 1
    | .resp false => 0
    | .networkError => 0

end SyncService

namespace Speech

/-- One recognition result delivered by the engine: its `isFinal` flag and its
transcript text. -/
structure RecogResult where
  isFinal : Bool
  transcript : String
  deriving DecidableEq

/-- The argument object of an `onResult` callback invocation:
`{ final, interim, isFinal }`. -/
structure ResultMsg where
  final : String
  interim : String
  isFinal : Bool
  deriving DecidableEq

/-- The closure state of one `startListening` episode: the `aggregatedFinal`
buffer, the `lastInterim` text, and whether a `silenceTimer` is pending. -/
structure EpState where
  aggregatedFinal : String
  lastInterim : String
  timerPending : Bool
  deriving DecidableEq

/-- Episode state at the top of `startListening`:
`aggregatedFinal = ''`, `lastInterim = ''`, no timer yet. -/
def initEpState : EpState := { aggregatedFinal := "", lastInterim := "", timerPending := false }

/-- `finalTranscript` accumulated by the `onresult` loop: the concatenation of
the transcripts of the final results of the event, in order. -/
def finalTranscriptOf (results : List RecogResult) : String :=
  results.foldl (fun acc r => if r.isFinal then acc ++ r.transcript else acc) ""

/-- `interimTranscript` accumulated by the `onresult` loop: the concatenation
of the transcripts of the non-final results of the event, in order. -/
def interimTranscriptOf (results : List RecogResult) : String :=
  results.foldl (fun acc r => if r.isFinal then acc else acc ++ r.transcript) ""

/-- The aggregation step of `onresult`:
`aggregatedFinal += (aggregatedFinal ? ' ' : '') + finalTranscript.trim()`. -/
def joinAggregate (agg t : String) : String :=
  agg ++ (if agg ≠ "" then " " else "") ++ t

/-- The `recognition.onresult` handler for one engine event carrying the given
new results: update the aggregate (only when `finalTranscript` is a non-empty
string), record the trimmed interim text, invoke `onResult`, and (when
`stopOnSilence`) reset the silence timer. Returns the new closure state and the
`onResult` argument. -/
def onresult (stopOnSilence stopOnFinal : Bool) (st : EpState)
    (results : List RecogResult) : EpState × ResultMsg :=
  let finalTranscript := finalTranscriptOf results
  let interimTranscript := interimTranscriptOf results
  let aggregated :=
    if finalTranscript ≠ "" then joinAggregate st.aggregatedFinal (JsString.trim finalTranscript)
    else st.aggregatedFinal
  let lastInterim := JsString.trim interimTranscript
  ({ aggregatedFinal := aggregated, lastInterim := lastInterim,
     timerPending := stopOnSilence || st.timerPending },
   { final := aggregated, interim := lastInterim,
     isFinal := stopOnFinal && finalTranscript.length > 0 })

/-- What the silence timer callback reports when it fires:
`combined = (aggregatedFinal + ' ' + lastInterim).trim()`; recognition is
stopped, `onResult` is invoked with `{ final: combined, interim: '',
isFinal: true }` only when `combined` is non-empty, and `onEnd` is invoked. -/
def silenceFire (st : EpState) : Option ResultMsg :=
  let combined := JsString.trim (st.aggregatedFinal ++ " " ++ st.lastInterim)
  if combined ≠ "" then
    some { final := combined, interim := "", isFinal := true }
  else
    none

/-- Fold the `onresult` handler over a list of engine events, collecting the
`onResult` invocations in order. -/
def runEvents (stopOnSilence stopOnFinal : Bool) (st : EpState) :
    List (List RecogResult) → EpState × List ResultMsg
  | [] => (st, [])
  | ev :: rest =>
    let r := onresult stopOnSilence stopOnFinal st ev
    let r2 := runEvents stopOnSilence stopOnFinal r.1 rest
    (r2.1, r.2 :: r2.2)

/-- One listening episode: the events are delivered, then a silence gap of at
least `silenceMs` passes. If a silence timer is pending after the events it
fires. Returns the `onResult` invocations of the episode in order and the
number of `onEnd` invocations issued by the silence-timer path. -/
def episode (stopOnSilence stopOnFinal : Bool) (events : List (List RecogResult)) :
    List ResultMsg × Nat :=
  let r := runEvents stopOnSilence stopOnFinal initEpState events
  if r.1.timerPending then
    (r.2 ++ (silenceFire r.1).toList, 1)
  else
    (r.2, 0)

/-- An episode in which the engine delivers one recognition result per event,
which is the granularity at which the specification speaks of a sequence of
final and interim fragments. -/
def episodeOfFragments (stopOnSilence stopOnFinal : Bool) (frags : List RecogResult) :
    List ResultMsg × Nat :=
  episode stopOnSilence stopOnFinal (frags.map (fun f => [f]))

/-- Specification-side: space-joined concatenation of a list of strings. -/
def joinSpaced : List String → String
  | [] => ""
  | [t] => t
  | t :: ts => t ++ " " ++ joinSpaced ts

/-- Specification-side: the trimmed texts of the final fragments of an episode,
in order. -/
def finalFragments (frags : List RecogResult) : List String :=
  (frags.filter (fun f => f.isFinal)).map (fun f => JsString.trim f.transcript)

/-- Specification-side: the trailing interim text of an episode — the trimmed
text of the last fragment if it is interim, empty otherwise. -/
def trailingInterim (frags : List RecogResult) : String :=
  match frags.getLast? with
  | some f => if f.isFinal then "" else JsString.trim f.transcript
  | none => ""

/-- Specification-side: the completed utterance the spec promises — the
space-joined concatenation of all (trimmed) final fragments plus the trailing
interim text, trimmed. -/
def specFinalText (frags : List RecogResult) : String :=
  (JsString.trim (joinSpaced (finalFragments frags) ++ " " ++ trailingInterim frags))

/-- The `combined` string the silence timer of an episode would compute from
the state reached after the given fragments. -/
def episodeCombined (stopOnSilence stopOnFinal : Bool) (frags : List RecogResult) : String :=
  let st := (runEvents stopOnSilence stopOnFinal initEpState (frags.map (fun f => [f]))).1
  JsString.trim (st.aggregatedFinal ++ " " ++ st.lastInterim)

/-- The runtime state of a `SpeechService` as far as `stopListening` can
observe or affect it: whether `this.recognition` was initialized, the
`this.isListening` flag, whether the engine is actively recognizing, and
whether the current episode has a pending `silenceTimer` (closure state of
`startListening`). -/
structure SpeechState where
  recognitionInit : Bool
  isListening : Bool
  engineActive : Bool
  silenceTimerPending : Bool
  deriving DecidableEq

/-- `stopListening()`: if `this.recognition && this.isListening`, call
`recognition.stop()` and clear the listening flag; otherwise do nothing. Note
the body never touches the episode silence timer. -/
def stopListening (s : SpeechState) : SpeechState :=
  if s.recognitionInit && s.isListening then
    { s with engineActive := false, isListening := false }
  else s

end Speech

namespace Conversation

/-- The `from` field of a conversation message. -/
inductive Sender where
  | user
  | app
  deriving DecidableEq

/-- One entry of `conversationHistory`:
`{ from, message, timestamp, isVoice }` (app messages carry no `isVoice`,
modelled as `false`). -/
structure Message where
  sender : Sender
  message : String
  timestamp : String
  isVoice : Bool
  deriving DecidableEq

/-- The component state of `ConversationScreen` relevant to `submitInput`,
`saveSession` and `startNewSession`. -/
structure ConvState where
  currentPrompt : String
  isProcessing : Bool
  sessionId : String
  conversationHistory : List Message
  transcript : String
  isSessionActive : Bool
  deriving DecidableEq

/-- The JSON body of a successful `/input/log` response as `submitInput`
inspects it (`clarification_needed`, `question`, `ready_to_save`; an absent
question is the empty string, which is falsy). -/
structure LogResponse where
  clarification_needed : Bool
  question : String
  ready_to_save : Bool
  deriving DecidableEq

/-- What a call to `submitInput` did, beyond its state change. -/
inductive SubmitOutcome where
  | rejected
  | clarified
  | saveRequested (resp : LogResponse)
  | noAction
  | failed
  deriving DecidableEq

/-- `startNewSession()`: fresh time-based session id, empty history, session
active, and the opening prompt. -/
def startNewSession (newSessionId : String) (st : ConvState) : ConvState :=
  { st with sessionId := newSessionId,
            conversationHistory := [],
            isSessionActive := true,
            currentPrompt := "Tell me about today\x27s activities." }

/-- `submitInput(input, isVoiceInput)`. Guard: empty (after trim) input or an
in-flight submission returns at once. Otherwise set `isProcessing`, append the
user turn, call `apiService.logEntry` (its outcome is the `api` argument), and
on a clarification append the app turn and replace the prompt; on
`ready_to_save` hand over to the save-confirmation flow; on a thrown error only
alert. The `finally` block clears `isProcessing` and the transcript. -/
def submitInput (st : ConvState) (input : String) (isVoiceInput : Bool)
    (api : Except Unit LogResponse) (now : String) : ConvState × SubmitOutcome :=
  if JsString.trim input = "" ∨ st.isProcessing then (st, .rejected)
  else
    let userMessage : Message :=
      { sender := .user, message := input, timestamp := now, isVoice := isVoiceInput }
    let st1 := { st with isProcessing := true,
                         conversationHistory := st.conversationHistory ++ [userMessage] }
    match api with
    | .ok response =>
      if response.clarification_needed ∧ response.question ≠ "" then
        let appMessage : Message :=
          { sender := .app, message := response.question, timestamp := now, isVoice := false }
        ({ st1 with conversationHistory := st1.conversationHistory ++ [appMessage],
                    currentPrompt := response.question,
                    isProcessing := false, transcript := "" },
         .clarified)
      else if response.ready_to_save then
        ({ st1 with isProcessing := false, transcript := "" }, .saveRequested response)
      else
        ({ st1 with isProcessing := false, transcript := "" }, .noAction)
    | .error _ =>
      ({ st1 with isProcessing := false, transcript := "" }, .failed)

/-- `saveSession(sessionData)`: await `apiService.saveSession` (a direct POST
to `/input/save_session` that throws on a non-ok response or network failure);
on success start a new session, on failure only alert. The body never
references the SyncService outbox, so the store is threaded through unchanged
to make that observable. The returned flag says whether the session reached the
saved transition (`startNewSession` ran). -/
def saveSession {π : Type} (st : ConvState) (queue : SyncService.QueueState π)
    (outcome : Except Unit Unit) (newSessionId : String) :
    ConvState × SyncService.QueueState π × Bool :=
  match outcome with
  | .ok _ => (startNewSession newSessionId st, queue, true)
  | .error _ => (st, queue, false)

end Conversation

namespace Examples

open SyncService Conversation

/-- A backend that accepts the payload `"A"` and rejects every other payload
with a non-ok response. -/
def netAcceptA : String → FetchResult :=
  fun p => if p = "A" then .resp true else .resp false

/-- A store holding the three payloads A, B, C enqueued in that order. -/
def queueABC : QueueState String :=
  { items := [ { id := 1, session := "A", status := "queued", createdAt := 0 },
               { id := 2, session := "B", status := "queued", createdAt := 0 },
               { id := 3, session := "C", status := "queued", createdAt := 0 } ],
    nextId := 4 }

/-- A conversation screen in its initial awaiting-answer state. -/
def convReady : ConvState :=
  { currentPrompt := "Tell me about today\x27s activities.",
    isProcessing := false,
    sessionId := "session_1",
    conversationHistory := [],
    transcript := "",
    isSessionActive := true }

end Examples

/-! ### Helper lemmas -/

theorem String.append_ne_empty_left (a b : String) (h : a ≠ "") : a ++ b ≠ "" := by
  intro hc
  apply h
  have hd := congrArg String.data hc
  rw [String.data_append] at hd
  exact String.ext (List.append_eq_nil.mp hd).1

theorem JsString.trim_empty : JsString.trim "" = "" := rfl

theorem JsString.ne_empty_of_trim_ne_empty (s : String) (h : JsString.trim s ≠ "") :
    s ≠ "" := by
  intro hc
  exact h (by rw [hc]; rfl)

namespace SyncService

variable {π : Type}

theorem filter_ne_head (item : PendingLogEntry π) (rest : List (PendingLogEntry π))
    (h : ∀ e ∈ rest, e.id ≠ item.id) :
    (item :: rest).filter (fun e => e.id != item.id) = rest := by
  rw [List.filter_cons_of_neg, List.filter_eq_self.mpr]
  · intro e he
    simpa using h e he
  · simp

theorem flushGo_eq (net : π → FetchResult) :
    ∀ (items : List (PendingLogEntry π)) (q : QueueState π),
      q.items = items →
      List.Pairwise (fun a b => a.id ≠ b.id) items →
      flushGo net q items =
        ({ items := items.drop (okPrefixLen net items), nextId := q.nextId },
         (items.take (okPrefixLen net items + 1)).map (fun e => e.id)) := by
  intro items
  induction items with
  | nil =>
    rintro ⟨qi, qn⟩ hq _
    have hq' : qi = [] := hq
    subst hq'
    simp [flushGo, okPrefixLen]
  | cons item rest ih =>
    rintro ⟨qi, qn⟩ hq hpw
    have hq' : qi = item :: rest := hq
    subst hq'
    have hdist : ∀ e ∈ rest, e.id ≠ item.id := by
      intro e he
      exact Ne.symm ((List.pairwise_cons.mp hpw).1 e he)
    have hrm : (removeItem ⟨item :: rest, qn⟩ item.id) = ⟨rest, qn⟩ := by
      simp only [removeItem]
      rw [filter_ne_head item rest hdist]
    cases hnet : net item.session with
    | resp ok =>
      cases ok with
      | true =>
        have hrec := ih ⟨rest, qn⟩ rfl (List.pairwise_cons.mp hpw).2
        simp [flushGo, hnet, hrm, hrec, okPrefixLen]
      | false =>
        simp [flushGo, hnet, okPrefixLen]
    | networkError =>
      simp [flushGo, hnet, okPrefixLen]

theorem okPrefixLen_le (net : π → FetchResult) :
    ∀ items : List (PendingLogEntry π), okPrefixLen net items ≤ items.length := by
  intro items
  induction items with
  | nil => simp [okPrefixLen]
  | cons item rest ih =>
    cases hnet : net item.session with
    | resp ok =>
      cases ok with
      | true => simpa [okPrefixLen, hnet] using ih
      | false => simp [okPrefixLen, hnet]
    | networkError => simp [okPrefixLen, hnet]

theorem mem_take_okPrefixLen (net : π → FetchResult) :
    ∀ items : List (PendingLogEntry π), ∀ e ∈ items.take (okPrefixLen net items),
      net e.session = .resp true := by
  intro items
  induction items with
  | nil => simp [okPrefixLen]
  | cons item rest ih =>
    intro e he
    cases hnet : net item.session with
    | resp ok =>
      cases ok with
      | true =>
        rw [okPrefixLen, hnet] at he
        simp only [List.take_succ_cons, List.mem_cons] at he
        rcases he with h | h
        · rw [h]; exact hnet
        · exact ih e h
      | false => rw [okPrefixLen, hnet] at he; simp at he
    | networkError => rw [okPrefixLen, hnet] at he; simp at he

theorem get_okPrefixLen_not_ok (net : π → FetchResult) :
    ∀ (items : List (PendingLogEntry π)) (h : okPrefixLen net items < items.length),
      ¬ net (items.get ⟨okPrefixLen net items, h⟩).session = .resp true := by
  intro items
  induction items with
  | nil => intro h; simp [okPrefixLen] at h
  | cons item rest ih =>
    intro h
    cases hnet : net item.session with
    | resp ok =>
      cases ok with
      | true =>
        have hlt : okPrefixLen net rest < rest.length := by
          have := h
          rw [okPrefixLen, hnet] at this
          simpa using this
        have := ih hlt
        simp only [okPrefixLen, hnet]
        simpa using this
      | false =>
        simp [okPrefixLen, hnet]
    | networkError =>
      simp [okPrefixLen, hnet]

end SyncService

namespace Speech

theorem runEvents_no_final_of_not_stopOnFinal (sos : Bool) :
    ∀ (evs : List (List RecogResult)) (st : EpState),
      ∀ m ∈ (runEvents sos false st evs).2, m.isFinal = false := by
  intro evs
  induction evs with
  | nil => intro st m hm; simp [runEvents] at hm
  | cons ev rest ih =>
    intro st m hm
    simp only [runEvents, List.mem_cons] at hm
    rcases hm with h | h
    · subst h; simp [onresult]
    · exact ih _ m h

theorem runEvents_timer (sof : Bool) :
    ∀ (evs : List (List RecogResult)) (st : EpState), evs ≠ [] →
      (runEvents true sof st evs).1.timerPending = true := by
  intro evs
  induction evs with
  | nil => intro st h; exact absurd rfl h
  | cons ev rest ih =>
    intro st _
    by_cases h : rest = []
    · subst h; simp [runEvents, onresult]
    · simp only [runEvents]
      exact ih _ h

theorem trailingInterim_cons_cons (f g : RecogResult) (rest : List RecogResult) :
    trailingInterim (f :: g :: rest) = trailingInterim (g :: rest) := by
  simp [trailingInterim, List.getLast?_cons_cons]

theorem runEvents_lastInterim (sos sof : Bool) :
    ∀ (frags : List RecogResult) (st : EpState), frags ≠ [] →
      (runEvents sos sof st (frags.map (fun f => [f]))).1.lastInterim =
        trailingInterim frags := by
  intro frags
  induction frags with
  | nil => intro st h; exact absurd rfl h
  | cons f rest ih =>
    intro st _
    cases rest with
    | nil =>
      cases hf : f.isFinal <;>
        simp [runEvents, onresult, trailingInterim, interimTranscriptOf, hf,
          JsString.trim_empty]
    | cons g rs =>
      rw [trailingInterim_cons_cons]
      simp only [List.map_cons, runEvents]
      exact ih _ (by simp)

theorem runEvents_aggregated (sos sof : Bool) :
    ∀ (frags : List RecogResult) (st : EpState),
      (∀ f ∈ frags, f.isFinal = true → JsString.trim f.transcript ≠ "") →
      (runEvents sos sof st (frags.map (fun f => [f]))).1.aggregatedFinal =
        List.foldl joinAggregate st.aggregatedFinal (finalFragments frags) := by
  intro frags
  induction frags with
  | nil => intro st _; simp [runEvents, finalFragments]
  | cons f rest ih =>
    intro st hfin
    simp only [List.map_cons, runEvents]
    rw [ih _ (fun g hg hgf => hfin g (List.mem_cons_of_mem f hg) hgf)]
    cases hf : f.isFinal with
    | true =>
      have hne : f.transcript ≠ "" := by
        intro hc
        exact hfin f (List.mem_cons_self f rest) hf (by rw [hc]; rfl)
      have hft : finalTranscriptOf [f] = f.transcript := by
        simp [finalTranscriptOf, hf]
      simp [onresult, hft, hne, finalFragments, hf]
    | false =>
      have hft : finalTranscriptOf [f] = "" := by
        simp [finalTranscriptOf, hf]
      simp [onresult, hft, finalFragments, hf]

theorem foldl_joinAggregate_of_ne (ts : List String) :
    ∀ a : String, a ≠ "" → List.foldl joinAggregate a ts = joinSpaced (a :: ts) := by
  induction ts with
  | nil => intro a _; simp [joinSpaced]
  | cons t ts ih =>
    intro a ha
    have h1 : joinAggregate a t = a ++ " " ++ t := by
      simp [joinAggregate, ha]
    have h2 : a ++ " " ++ t ≠ "" :=
      String.append_ne_empty_left _ _ (String.append_ne_empty_left _ _ ha)
    rw [List.foldl_cons, h1, ih _ h2]
    cases ts with
    | nil => simp [joinSpaced]
    | cons u us => simp [joinSpaced, String.append_assoc]

theorem foldl_joinAggregate_empty (ts : List String) (h : ∀ t ∈ ts, t ≠ "") :
    List.foldl joinAggregate "" ts = joinSpaced ts := by
  cases ts with
  | nil => rfl
  | cons t ts' =>
    have h1 : joinAggregate "" t = t := by
      simp [joinAggregate]
    rw [List.foldl_cons, h1]
    exact foldl_joinAggregate_of_ne ts' t (h t (List.mem_cons_self t ts'))

end Speech

/-! ### Claim theorems -/

/-- C1: `flushQueue` processes the queued entries strictly in the order they
were enqueued (FIFO by creation key). The attempted keys are exactly the
longest all-ok prefix plus, if one exists, the first entry whose delivery does
not succeed — entries behind it are never attempted — and the resulting store
keeps exactly the entries from the first non-success on, unchanged and in
order; each delivered entry was removed (by `removeItem` inside the loop)
before the next was attempted. -/
theorem flushQueue_fifo_stops_at_first_failure {π : Type}
    (net : π → SyncService.FetchResult) (q : SyncService.QueueState π)
    (hwf : q.WF) :
    SyncService.flushQueue net q =
      ({ items := q.items.drop (SyncService.okPrefixLen net q.items),
         nextId := q.nextId },
       (q.items.take (SyncService.okPrefixLen net q.items + 1)).map (fun e => e.id)) := by
  have hpw : List.Pairwise (fun a b : SyncService.PendingLogEntry π => a.id ≠ b.id) q.items :=
    hwf.1.imp (fun h => Nat.ne_of_lt h)
  exact SyncService.flushGo_eq net q.items q rfl hpw

/-- Witness for C1, the scenario of the spec: payloads A, B, C enqueued in
order, the backend accepts A and rejects B; the flush attempts exactly the keys
of A and B (C is never attempted) and leaves exactly the entries of B and C. -/
theorem flushQueue_fifo_stops_at_first_failure_witness :
    Examples.queueABC.WF ∧
    SyncService.flushQueue Examples.netAcceptA Examples.queueABC =
      ({ items := [ { id := 2, session := "B", status := "queued", createdAt := 0 },
                    { id := 3, session := "C", status := "queued", createdAt := 0 } ],
         nextId := 4 }, [1, 2]) := by
  have h := flushQueue_fifo_stops_at_first_failure Examples.netAcceptA Examples.queueABC
    (by decide)
  exact ⟨by decide, h.trans (by decide)⟩

/-- C2: when the durable store is available, `sendOrQueue` resolves with
`sent` and an unchanged store whenever the immediate delivery gets an ok
response, and on any delivery failure (non-ok response or network error) it
appends exactly one new entry, under a key different from every existing key,
and resolves with `queued` instead of propagating the delivery error. -/
theorem sendOrQueue_sent_or_queued {π : Type}
    (net : π → SyncService.FetchResult) (q : SyncService.QueueState π)
    (session : π) (now : Nat) (hwf : q.WF) :
    (net session = .resp true →
       SyncService.sendOrQueue net true q session now = .ok (.sent, q)) ∧
    (net session ≠ .resp true →
       SyncService.sendOrQueue net true q session now =
         .ok (.queued,
              { items := q.items ++ [{ id := q.nextId, session := session,
                                       status := "queued", createdAt := now }],
                nextId := q.nextId + 1 }) ∧
       ∀ e ∈ q.items, e.id ≠ q.nextId) := by
  constructor
  · intro h
    simp [SyncService.sendOrQueue, h]
  · intro h
    refine ⟨?_, fun e he => Nat.ne_of_lt (hwf.2 e he)⟩
    cases hnet : net session with
    | resp ok =>
      cases ok with
      | true => exact absurd hnet h
      | false => simp [SyncService.sendOrQueue, hnet, SyncService.enqueueLog]
    | networkError => simp [SyncService.sendOrQueue, hnet, SyncService.enqueueLog]

/-- Witness for C2: with the store available, sending the accepted payload A
leaves the store unchanged, and sending the rejected payload D appends one
entry under the fresh key 4. -/
theorem sendOrQueue_sent_or_queued_witness :
    Examples.queueABC.WF ∧
    SyncService.sendOrQueue Examples.netAcceptA true Examples.queueABC "A" 9 =
      .ok (.sent, Examples.queueABC) ∧
    SyncService.sendOrQueue Examples.netAcceptA true Examples.queueABC "D" 9 =
      .ok (.queued,
           { items := Examples.queueABC.items ++
               [{ id := 4, session := "D", status := "queued", createdAt := 9 }],
             nextId := 5 }) := by
  have hA := sendOrQueue_sent_or_queued Examples.netAcceptA Examples.queueABC "A" 9 (by decide)
  have hD := sendOrQueue_sent_or_queued Examples.netAcceptA Examples.queueABC "D" 9 (by decide)
  refine ⟨by decide, hA.1 (by decide), ?_⟩
  exact ((hD.2 (by decide)).1).trans rfl

/-- C10: if the immediate delivery fails and the durable store is unavailable,
`sendOrQueue` rejects with the storage error instead of resolving with
`queued`; and a `queued` resolution happens only when the enqueue transaction
actually committed, in which case the resulting store is exactly the old store
with the one new entry appended. -/
theorem sendOrQueue_storage_failure_propagates {π : Type}
    (net : π → SyncService.FetchResult) (q : SyncService.QueueState π)
    (session : π) (now : Nat) :
    (net session ≠ .resp true →
       SyncService.sendOrQueue net false q session now = .error .persistence) ∧
    (∀ (avail : Bool) (q2 : SyncService.QueueState π),
       SyncService.sendOrQueue net avail q session now = .ok (.queued, q2) →
       avail = true ∧
       q2 = { items := q.items ++ [{ id := q.nextId, session := session,
                                     status := "queued", createdAt := now }],
              nextId := q.nextId + 1 }) := by
  constructor
  · intro h
    cases hnet : net session with
    | resp ok =>
      cases ok with
      | true => exact absurd hnet h
      | false => simp [SyncService.sendOrQueue, hnet, SyncService.enqueueLog]
    | networkError => simp [SyncService.sendOrQueue, hnet, SyncService.enqueueLog]
  · intro avail q2 h
    cases hnet : net session with
    | resp ok =>
      cases ok with
      | true =>
        rw [SyncService.sendOrQueue, hnet] at h
        simp at h
      | false =>
        cases avail with
        | true =>
          rw [SyncService.sendOrQueue, hnet] at h
          simp [SyncService.enqueueLog] at h
          exact ⟨rfl, h.symm⟩
        | false =>
          rw [SyncService.sendOrQueue, hnet] at h
          simp [SyncService.enqueueLog] at h
    | networkError =>
      cases avail with
      | true =>
        rw [SyncService.sendOrQueue, hnet] at h
        simp [SyncService.enqueueLog] at h
        exact ⟨rfl, h.symm⟩
      | false =>
        rw [SyncService.sendOrQueue, hnet] at h
        simp [SyncService.enqueueLog] at h

/-- Witness for C10: payload D is rejected by the backend; with the store
unavailable the call rejects with the storage error, and with the store
available the `queued` resolution carries exactly the committed store. -/
theorem sendOrQueue_storage_failure_propagates_witness :
    (Examples.netAcceptA "D" ≠ .resp true) ∧
    SyncService.sendOrQueue Examples.netAcceptA false Examples.queueABC "D" 9 =
      .error .persistence ∧
    (true = true ∧
     ({ items := Examples.queueABC.items ++
          [{ id := 4, session := "D", status := "queued", createdAt := 9 }],
        nextId := 5 } : SyncService.QueueState String) =
       { items := Examples.queueABC.items ++
           [{ id := Examples.queueABC.nextId, session := "D",
              status := "queued", createdAt := 9 }],
         nextId := Examples.queueABC.nextId + 1 }) := by
  have h := sendOrQueue_storage_failure_propagates Examples.netAcceptA Examples.queueABC "D" 9
  exact ⟨by decide, h.1 (by decide), h.2 true _ rfl⟩

/-- C5: during a flush an entry of the store is removed exactly when the
backend answered its POST with an ok response (it was attempted — its key is in
the attempt trace — and that attempt succeeded); and the other operations of
the delivery path never remove a stored entry: a committed `enqueueLog`
preserves every existing entry, and so does `sendOrQueue` whichever way it
resolves (`removeItem` itself is invoked only from the ok branch of the flush
loop). -/
theorem flush_removes_entry_iff_acknowledged {π : Type}
    (net : π → SyncService.FetchResult) (q : SyncService.QueueState π)
    (hwf : q.WF) (e : SyncService.PendingLogEntry π) (he : e ∈ q.items) :
    (e ∉ (SyncService.flushQueue net q).1.items ↔
       e.id ∈ (SyncService.flushQueue net q).2 ∧ net e.session = .resp true) ∧
    (∀ (avail : Bool) (s : π) (now : Nat) (q2 : SyncService.QueueState π),
       SyncService.enqueueLog avail q s now = .ok q2 → e ∈ q2.items) ∧
    (∀ (net2 : π → SyncService.FetchResult) (avail : Bool) (s : π) (now : Nat)
       (out : SyncService.SendOutcome) (q2 : SyncService.QueueState π),
       SyncService.sendOrQueue net2 avail q s now = .ok (out, q2) → e ∈ q2.items) := by
  have hpw : List.Pairwise (fun a b : SyncService.PendingLogEntry π => a.id ≠ b.id) q.items :=
    hwf.1.imp (fun h => Nat.ne_of_lt h)
  have hndmap : (q.items.map (fun x => x.id)).Nodup := List.pairwise_map.mpr hpw
  have hnd : q.items.Nodup := List.Nodup.of_map _ hndmap
  have hfq : SyncService.flushQueue net q =
      ({ items := q.items.drop (SyncService.okPrefixLen net q.items), nextId := q.nextId },
       (q.items.take (SyncService.okPrefixLen net q.items + 1)).map (fun x => x.id)) :=
    SyncService.flushGo_eq net q.items q rfl hpw
  refine ⟨?_, ?_, ?_⟩
  · rw [hfq]
    constructor
    · intro hnot
      have hsplit : e ∈ q.items.take (SyncService.okPrefixLen net q.items) ++
          q.items.drop (SyncService.okPrefixLen net q.items) := by
        rw [List.take_append_drop]
        exact he
      have htake : e ∈ q.items.take (SyncService.okPrefixLen net q.items) := by
        rcases List.mem_append.mp hsplit with h | h
        · exact h
        · exact absurd h hnot
      refine ⟨?_, SyncService.mem_take_okPrefixLen net q.items e htake⟩
      apply List.mem_map_of_mem
      rw [List.take_succ]
      exact List.mem_append_left _ htake
    · rintro ⟨hid, hok⟩ hdrop
      rcases List.mem_map.mp hid with ⟨f, hf, hfid⟩
      have hfmem : f ∈ q.items := List.take_subset _ _ hf
      have hef : f = e := List.inj_on_of_nodup_map hndmap hfmem he hfid
      rw [hef] at hf
      rw [List.take_succ] at hf
      rcases List.mem_append.mp hf with h | h
      · have hnd2 := hnd
        rw [← List.take_append_drop (SyncService.okPrefixLen net q.items) q.items] at hnd2
        have hdisj := (List.nodup_append.mp hnd2).2.2
        exact hdisj h hdrop
      · cases hk : q.items[SyncService.okPrefixLen net q.items]? with
        | none =>
          rw [hk] at h
          simp at h
        | some x =>
          rw [hk] at h
          simp at h
          obtain ⟨hklt, hgx⟩ := List.getElem?_eq_some.mp hk
          have hnot := SyncService.get_okPrefixLen_not_ok net q.items hklt
          apply hnot
          rw [List.get_eq_getElem, hgx, ← h]
          exact hok
  · intro avail s now q2 h
    cases avail with
    | true =>
      simp [SyncService.enqueueLog] at h
      rw [← h]
      exact List.mem_append_left _ he
    | false => simp [SyncService.enqueueLog] at h
  · intro net2 avail s now out q2 h
    cases hnet : net2 s with
    | resp ok =>
      cases ok with
      | true =>
        rw [SyncService.sendOrQueue, hnet] at h
        simp at h
        rw [← h.2]
        exact he
      | false =>
        rw [SyncService.sendOrQueue, hnet] at h
        cases avail with
        | true =>
          simp [SyncService.enqueueLog] at h
          rw [← h.2]
          exact List.mem_append_left _ he
        | false => simp [SyncService.enqueueLog] at h
    | networkError =>
      rw [SyncService.sendOrQueue, hnet] at h
      cases avail with
      | true =>
        simp [SyncService.enqueueLog] at h
        rw [← h.2]
        exact List.mem_append_left _ he
      | false => simp [SyncService.enqueueLog] at h

/-- Witness for C5: in the A, B, C store with a backend accepting only A, the
entry of B satisfies the removal characterization (it was attempted, its
delivery was not acknowledged, and indeed it is not removed). -/
theorem flush_removes_entry_iff_acknowledged_witness :
    Examples.queueABC.WF ∧
    ({ id := 2, session := "B", status := "queued", createdAt := 0 } :
        SyncService.PendingLogEntry String) ∈ Examples.queueABC.items ∧
    (({ id := 2, session := "B", status := "queued", createdAt := 0 } :
        SyncService.PendingLogEntry String) ∉
          (SyncService.flushQueue Examples.netAcceptA Examples.queueABC).1.items ↔
       2 ∈ (SyncService.flushQueue Examples.netAcceptA Examples.queueABC).2 ∧
       Examples.netAcceptA "B" = .resp true) := by
  have h := flush_removes_entry_iff_acknowledged Examples.netAcceptA Examples.queueABC
    (by decide) { id := 2, session := "B", status := "queued", createdAt := 0 } (by decide)
  exact ⟨by decide, by decide, h.1⟩

/-- C4 (counterexample): the claim says the save path hands the finished
record to the delivery path with a queue fallback, so a failed delivery leaves
the record enqueued. In the code `saveSession` awaits the direct
`apiService.saveSession` POST and on failure only alerts: starting from an
empty store, a failed save leaves the store still empty — nothing was enqueued
— and the session did not reach the saved transition. -/
theorem saveSession_no_queue_fallback_counterexample :
    ¬ ((Conversation.saveSession Examples.convReady
          ({ items := [], nextId := 1 } : SyncService.QueueState String)
          (.error ()) "session_2").2.1.items ≠ []) ∧
    (Conversation.saveSession Examples.convReady
        ({ items := [], nextId := 1 } : SyncService.QueueState String)
        (.error ()) "session_2").2.2 = false := by
  exact ⟨fun h => h rfl, rfl⟩

/-- C4 (amended): the session reaches the saved transition (a fresh session is
started) exactly when the backend accepted the payload; on a failed delivery
the session state is fully preserved for a retry. The finished record is not
handed to the DeliveryQueue in either case — the save path performs direct
delivery only, and the store is unchanged. -/
theorem saveSession_saved_only_on_acceptance {π : Type} (st : Conversation.ConvState)
    (q : SyncService.QueueState π) (newId : String) :
    Conversation.saveSession st q (.ok ()) newId =
      (Conversation.startNewSession newId st, q, true) ∧
    Conversation.saveSession st q (.error ()) newId = (st, q, false) :=
  ⟨rfl, rfl⟩

/-- C6: on a backend communication failure, `submitInput` keeps the prompt at
its pre-submission value, keeps the failed user turn appended at the end of the
conversation history (losing no earlier turn), and clears the in-flight flag so
the user can retry. -/
theorem submitInput_failure_preserves_state (st : Conversation.ConvState)
    (input : String) (isVoice : Bool) (now : String)
    (hin : JsString.trim input ≠ "") (hproc : st.isProcessing = false) :
    (Conversation.submitInput st input isVoice (.error ()) now).1.currentPrompt =
      st.currentPrompt ∧
    (Conversation.submitInput st input isVoice (.error ()) now).1.conversationHistory =
      st.conversationHistory ++
        [{ sender := .user, message := input, timestamp := now, isVoice := isVoice }] ∧
    (Conversation.submitInput st input isVoice (.error ()) now).1.isProcessing = false ∧
    (Conversation.submitInput st input isVoice (.error ()) now).2 = .failed := by
  simp [Conversation.submitInput, hin, hproc]

/-- Witness for C6: a concrete failing submission of the text `pasta` from the
initial screen state. -/
theorem submitInput_failure_preserves_state_witness :
    JsString.trim "pasta" ≠ "" ∧ Examples.convReady.isProcessing = false ∧
    ((Conversation.submitInput Examples.convReady "pasta" false (.error ()) "t1").1.currentPrompt =
       Examples.convReady.currentPrompt ∧
     (Conversation.submitInput Examples.convReady "pasta" false
         (.error ()) "t1").1.conversationHistory =
       Examples.convReady.conversationHistory ++
         [{ sender := .user, message := "pasta", timestamp := "t1", isVoice := false }] ∧
     (Conversation.submitInput Examples.convReady "pasta" false (.error ()) "t1").1.isProcessing =
       false ∧
     (Conversation.submitInput Examples.convReady "pasta" false (.error ()) "t1").2 = .failed) := by
  have h := submitInput_failure_preserves_state Examples.convReady "pasta" false "t1"
    (by decide) rfl
  exact ⟨by decide, rfl, h⟩

/-- C7: a call to `submitInput` whose input is empty after trimming, or made
while another submission is in flight, returns the state unchanged with the
`rejected` outcome — no turn appended, no backend call, no state change; and
every call (rejected or not) only ever extends the conversation history at the
end, so turns are appended in submission order. -/
theorem submitInput_guard_rejects (st : Conversation.ConvState) (input : String)
    (isVoice : Bool) (api : Except Unit Conversation.LogResponse) (now : String) :
    ((JsString.trim input = "" ∨ st.isProcessing) →
       Conversation.submitInput st input isVoice api now = (st, .rejected)) ∧
    (∃ tail, (Conversation.submitInput st input isVoice api now).1.conversationHistory =
       st.conversationHistory ++ tail) := by
  constructor
  · intro h
    simp [Conversation.submitInput, h]
  · by_cases h : (JsString.trim input = "" ∨ st.isProcessing = true)
    · refine ⟨[], ?_⟩
      simp [Conversation.submitInput, h]
    · cases api with
      | error e =>
        refine ⟨[{ sender := .user, message := input, timestamp := now, isVoice := isVoice }], ?_⟩
        simp [Conversation.submitInput, h]
      | ok resp =>
        by_cases h2 : resp.clarification_needed ∧ resp.question ≠ ""
        · refine ⟨[{ sender := .user, message := input, timestamp := now, isVoice := isVoice },
                   { sender := .app, message := resp.question, timestamp := now,
                     isVoice := false }], ?_⟩
          simp [Conversation.submitInput, h, h2]
        · by_cases h3 : resp.ready_to_save
          · refine ⟨[{ sender := .user, message := input, timestamp := now,
                       isVoice := isVoice }], ?_⟩
            simp [Conversation.submitInput, h, h2, h3]
          · refine ⟨[{ sender := .user, message := input, timestamp := now,
                       isVoice := isVoice }], ?_⟩
            simp [Conversation.submitInput, h, h2, h3]

/-- Witness for C7: submitting whitespace-only input from the initial state is
rejected with the state unchanged. -/
theorem submitInput_guard_rejects_witness :
    (JsString.trim "   " = "" ∨ Examples.convReady.isProcessing) ∧
    Conversation.submitInput Examples.convReady "   " false (.error ()) "t1" =
      (Examples.convReady, .rejected) ∧
    (∃ tail, (Conversation.submitInput Examples.convReady "   " false
        (.error ()) "t1").1.conversationHistory =
      Examples.convReady.conversationHistory ++ tail) := by
  have h := submitInput_guard_rejects Examples.convReady "   " false (.error ()) "t1"
  exact ⟨Or.inl (by decide), h.1 (Or.inl (by decide)), h.2⟩

/-- C8 (counterexample): the claim says `stopListening` called in any state
cancels any pending silence timer. In the code its body only calls
`recognition.stop()` and clears the listening flag; starting from a listening
state with a pending silence timer, the timer is still pending after the
call (it is cleared only later, by the engine `onend`/`onerror` handlers). -/
theorem stopListening_leaves_timer_counterexample :
    ¬ ((Speech.stopListening
          { recognitionInit := true, isListening := true,
            engineActive := true, silenceTimerPending := true }).silenceTimerPending = false) := by
  decide

/-- C8 (amended): `stopListening` is idempotent and safe to call when not
listening — a call while not listening (or a second consecutive call) changes
nothing and does not fail; when the engine is initialized and listening it
stops the engine and clears the listening flag. It does not itself cancel a
pending silence timer; that cancellation is performed by the engine
end/error handlers. -/
theorem stopListening_idempotent_safe (s : Speech.SpeechState) :
    Speech.stopListening (Speech.stopListening s) = Speech.stopListening s ∧
    (s.isListening = false → Speech.stopListening s = s) ∧
    (s.recognitionInit = true → s.isListening = true →
       Speech.stopListening s = { s with engineActive := false, isListening := false }) := by
  obtain ⟨a, b, c, d⟩ := s
  revert a b c d
  decide

/-- Witness for C8: a call while not listening changes nothing, and a call in
a fully active state stops the engine, clears the listening flag, and leaves
the pending timer flag untouched. -/
theorem stopListening_idempotent_safe_witness :
    Speech.stopListening
        { recognitionInit := true, isListening := false,
          engineActive := false, silenceTimerPending := false } =
      { recognitionInit := true, isListening := false,
        engineActive := false, silenceTimerPending := false } ∧
    Speech.stopListening
        { recognitionInit := true, isListening := true,
          engineActive := true, silenceTimerPending := true } =
      { recognitionInit := true, isListening := false,
        engineActive := false, silenceTimerPending := true } := by
  refine ⟨(stopListening_idempotent_safe _).2.1 rfl, ?_⟩
  exact (stopListening_idempotent_safe
    { recognitionInit := true, isListening := true,
      engineActive := true, silenceTimerPending := true }).2.2 rfl rfl

/-- C3 (counterexample): the claim promises exactly one `isFinal` result for
every fragment sequence followed by silence. For an episode consisting of a
single interim fragment with empty text, the silence timer fires with an empty
combined transcript and the code reports no final result at all: the count of
`isFinal` results is zero, not one. -/
theorem silence_no_final_for_empty_episode_counterexample :
    ¬ (((Speech.episodeOfFragments true false
          [{ isFinal := false, transcript := "" }]).1.filter
            (fun m => m.isFinal)).length = 1) := by
  decide

/-- C3 (amended): with `stopOnSilence` on and `stopOnFinal` at its default
off, for every non-empty sequence of fragments whose final fragments have
non-empty trimmed text and whose combined text is non-empty, followed by a
silence gap of at least `silenceMs`, exactly one `isFinal` result is reported
via `onResult`, and its text is the space-joined concatenation of the trimmed
final fragments plus the trailing interim text, trimmed. -/
theorem silence_reports_aggregate_once (frags : List Speech.RecogResult)
    (hne : frags ≠ [])
    (hfin : ∀ f ∈ frags, f.isFinal = true → JsString.trim f.transcript ≠ "")
    (htext : Speech.specFinalText frags ≠ "") :
    (Speech.episodeOfFragments true false frags).1.filter (fun m => m.isFinal) =
      [{ final := Speech.specFinalText frags, interim := "", isFinal := true }] := by
  have helems : ∀ t ∈ Speech.finalFragments frags, t ≠ "" := by
    intro t ht
    rcases List.mem_map.mp ht with ⟨f, hfmem, hft⟩
    rcases List.mem_filter.mp hfmem with ⟨hf1, hf2⟩
    rw [← hft]
    exact hfin f hf1 hf2
  have hAgg : (Speech.runEvents true false Speech.initEpState
      (frags.map (fun f => [f]))).1.aggregatedFinal =
      Speech.joinSpaced (Speech.finalFragments frags) := by
    rw [Speech.runEvents_aggregated true false frags Speech.initEpState hfin]
    exact Speech.foldl_joinAggregate_empty _ helems
  have hInt : (Speech.runEvents true false Speech.initEpState
      (frags.map (fun f => [f]))).1.lastInterim = Speech.trailingInterim frags :=
    Speech.runEvents_lastInterim true false frags Speech.initEpState hne
  have hTimer : (Speech.runEvents true false Speech.initEpState
      (frags.map (fun f => [f]))).1.timerPending = true := by
    apply Speech.runEvents_timer false (frags.map (fun f => [f])) Speech.initEpState
    cases frags with
    | nil => exact absurd rfl hne
    | cons f r => simp
  have hComb : JsString.trim
      ((Speech.runEvents true false Speech.initEpState
          (frags.map (fun f => [f]))).1.aggregatedFinal ++ " " ++
        (Speech.runEvents true false Speech.initEpState
          (frags.map (fun f => [f]))).1.lastInterim) = Speech.specFinalText frags := by
    rw [hAgg, hInt]
    rfl
  have hmsgs : (Speech.runEvents true false Speech.initEpState
      (frags.map (fun f => [f]))).2.filter (fun m => m.isFinal) = [] := by
    apply List.filter_eq_nil_iff.mpr
    intro m hm
    rw [Speech.runEvents_no_final_of_not_stopOnFinal true _ _ m hm]
    simp
  simp only [Speech.episodeOfFragments, Speech.episode, hTimer, if_true,
    Speech.silenceFire, hComb, htext]
  rw [if_pos htext]
  rw [List.filter_append, hmsgs]
  simp

/-- Witness for C3 (amended), the scenario of the spec: the user speaks
`She had pasta for lunch` as one final fragment and then stays silent; exactly
one final result is reported, carrying that text. -/
theorem silence_reports_aggregate_once_witness :
    ([{ isFinal := true, transcript := "She had pasta for lunch" }] :
        List Speech.RecogResult) ≠ [] ∧
    (∀ f ∈ ([{ isFinal := true, transcript := "She had pasta for lunch" }] :
        List Speech.RecogResult), f.isFinal = true → JsString.trim f.transcript ≠ "") ∧
    Speech.specFinalText [{ isFinal := true, transcript := "She had pasta for lunch" }] ≠ "" ∧
    (Speech.episodeOfFragments true false
        [{ isFinal := true, transcript := "She had pasta for lunch" }]).1.filter
          (fun m => m.isFinal) =
      [{ final := "She had pasta for lunch", interim := "", isFinal := true }] := by
  have h := silence_reports_aggregate_once
    [{ isFinal := true, transcript := "She had pasta for lunch" }]
    (by decide) (by decide) (by decide)
  exact ⟨by decide, by decide, by decide, h.trans (by decide)⟩

/-- C9: if the silence timer fires in an episode whose combined transcript
(aggregated finals plus trailing interim, trimmed) is empty, no `isFinal`
result is reported at all, while `onEnd` is still invoked once by the
timer path. -/
theorem silence_empty_combined_reports_no_final (frags : List Speech.RecogResult)
    (hne : frags ≠ [])
    (hempty : Speech.episodeCombined true false frags = "") :
    (Speech.episodeOfFragments true false frags).1.filter (fun m => m.isFinal) = [] ∧
    (Speech.episodeOfFragments true false frags).2 = 1 := by
  have hTimer : (Speech.runEvents true false Speech.initEpState
      (frags.map (fun f => [f]))).1.timerPending = true := by
    apply Speech.runEvents_timer false (frags.map (fun f => [f])) Speech.initEpState
    cases frags with
    | nil => exact absurd rfl hne
    | cons f r => simp
  have hempty' : JsString.trim
      ((Speech.runEvents true false Speech.initEpState
          (frags.map (fun f => [f]))).1.aggregatedFinal ++ " " ++
        (Speech.runEvents true false Speech.initEpState
          (frags.map (fun f => [f]))).1.lastInterim) = "" := hempty
  have hmsgs : (Speech.runEvents true false Speech.initEpState
      (frags.map (fun f => [f]))).2.filter (fun m => m.isFinal) = [] := by
    apply List.filter_eq_nil_iff.mpr
    intro m hm
    rw [Speech.runEvents_no_final_of_not_stopOnFinal true _ _ m hm]
    simp
  constructor
  · simp only [Speech.episodeOfFragments, Speech.episode, hTimer, if_true,
      Speech.silenceFire]
    rw [if_neg (not_not_intro hempty')]
    rw [List.filter_append, hmsgs]
    simp
  · simp only [Speech.episodeOfFragments, Speech.episode, hTimer, if_true]

/-- Witness for C9: a single empty interim fragment followed by silence
produces zero final results and one `onEnd` from the timer path. -/
theorem silence_empty_combined_reports_no_final_witness :
    ([{ isFinal := false, transcript := "" }] : List Speech.RecogResult) ≠ [] ∧
    Speech.episodeCombined true false [{ isFinal := false, transcript := "" }] = "" ∧
    ((Speech.episodeOfFragments true false
        [{ isFinal := false, transcript := "" }]).1.filter (fun m => m.isFinal) = [] ∧
     (Speech.episodeOfFragments true false [{ isFinal := false, transcript := "" }]).2 = 1) := by
  have h := silence_empty_combined_reports_no_final
    [{ isFinal := false, transcript := "" }] (by decide) (by decide)
  exact ⟨by decide, by decide, h⟩
